import Mathlib

/-!
Verification of the rut-go library (Chilean RUT validation, parsing and
formatting) against its natural-language specification.

The Go source (src/rut.go) is shallowly embedded below.  Strings are
modelled as `List Char` (the library only ever inspects single bytes, and
every character the claims exercise is ASCII).  Go's `int` is modelled as
`Int` in the `RUT` structure and as `Nat` where the code guarantees
non-negativity.  Fallible operations return `Except ParseError`.
-/

namespace Rut

/-- The four error values of the package (rut.go lines 17-22). -/
inductive ParseError where
  | ErrInvalidFormat
  | ErrEmptyRUT
  | ErrTooShort
  | ErrTooLong
deriving DecidableEq, Repr

/-- The three formatting styles (rut.go lines 27-34).  Go represents the
style as an `int` and formats any unrecognized value like `FormatComplete`;
the claims only concern the three named styles, so a closed enum suffices. -/
inductive FormatStyle where
  | FormatComplete
  | FormatEscaped
  | FormatWithDash
deriving DecidableEq, Repr

/-- The lookup table `multipliers` (rut.go line 37), as a function of the
index; the code only ever indexes it with `multiplierIdx < 6`. -/
def multipliers : Nat → Nat
  | 0 => 2
  | 1 => 3
  | 2 => 4
  | 3 => 5
  | 4 => 6
  | 5 => 7
  | _ => 0

/-- `isValidRUTChar` (rut.go lines 41-49): digits map to themselves,
`k`/`K` normalize to `K`, everything else is invalid (`none`). -/
def isValidRUTChar (c : Char) : Option Char :=
  if '0' ≤ c ∧ c ≤ '9' then some c
  else if c = 'k' ∨ c = 'K' then some 'K'
  else none

/-- The `RUT` structure (rut.go lines 52-55). -/
structure RUT where
  Number : Int
  DV : Char
deriving DecidableEq, Repr

/-- The accumulation loop of `CalculateDV` (rut.go lines 150-156):
`while number > 0 { sum += (number % 10) * multipliers[idx]; number /= 10;
idx = (idx + 1) % 6 }`.  The extra `fuel` argument is only a structural
termination measure; the loop runs at most `number` times because
`number / 10 < number`. -/
def dvSumF : Nat → Nat → Nat → Nat → Nat
  | 0, _, _, sum => sum
  | fuel + 1, number, idx, sum =>
    if number = 0 then sum
    else dvSumF fuel (number / 10) ((idx + 1) % 6) (sum + (number % 10) * multipliers idx)

/-- `CalculateDV` (rut.go lines 142-169). -/
def CalculateDV (number : Nat) : Char :=
  if number = 0 then '0'
  else
    let sum := dvSumF number number 0 0
    let remainder := sum % 11
    let checkResult := 11 - remainder
    if checkResult = 11 then '0'
    else if checkResult = 10 then 'K'
    else Char.ofNat (checkResult + 48)

/-- The fixed weight sequence of the spec: `[2,3,4,5,6,7]`. -/
def specWeights : List Nat := [2, 3, 4, 5, 6, 7]

/-- The weight for digit position `i` (counted from the least significant
digit), drawn cyclically from `specWeights`, restarting after the sixth. -/
def specWeight (i : Nat) : Nat := specWeights.getD (i % 6) 0

/-- Weighted digit sum over a little-endian digit list, starting at
position index `i`. -/
def specSumGo : List Nat → Nat → Nat
  | [], _ => 0
  | d :: ds, i => d * specWeight i + specSumGo ds (i + 1)

/-- Reference checksum sum, written from the spec's words: starting from
the least-significant decimal digit, multiply each digit by a weight drawn
cyclically from `[2,3,4,5,6,7]` and sum the products. -/
def referenceChecksum (body : Nat) : Nat := specSumGo (Nat.digits 10 body) 0

/-- Reference check character, written from the spec's words: take
`remainder = sum mod 11`, `result = 11 - remainder`, map `11` to `'0'`,
`10` to `'K'`, otherwise the decimal digit character; `body = 0` yields
`'0'` directly. -/
def referenceDV (body : Nat) : Char :=
  if body = 0 then '0'
  else
    let remainder := referenceChecksum body % 11
    let result := 11 - remainder
    if result = 11 then '0'
    else if result = 10 then 'K'
    else Char.ofNat (result + 48)

/-- `strconv.Atoi` restricted to the strings `Parse` can feed it: it
fails on an empty string or on any non-digit character, and otherwise
returns the decimal value.  (Go's `Atoi` also accepts sign characters and
can overflow, but the buffer handed to it by `Parse` holds at most nine
characters drawn from `0`-`9` and `K`, where neither applies.) -/
def parseNat (l : List Char) : Option Nat :=
  if l = [] ∨ ¬ l.all (fun c => decide ('0' ≤ c ∧ c ≤ '9')) then none
  else some (l.foldl (fun acc c => 10 * acc + (c.toNat - 48)) 0)

/-- The scanning loop of `Parse` (rut.go lines 81-98): skip `.` and `-`,
return `ErrTooLong` once a thirteenth meaningful character is reached
(`n >= 12` is tested before the character is validated), reject invalid
characters with `ErrInvalidFormat`, and accumulate the normalized
characters in order. -/
def scan : List Char → List Char → Except ParseError (List Char)
  | [], acc => .ok acc
  | c :: rest, acc =>
    if c = '.' ∨ c = '-' then scan rest acc
    else if 12 ≤ acc.length then .error .ErrTooLong
    else
      match isValidRUTChar c with
      | some ch => scan rest (acc ++ [ch])
      | none => .error .ErrInvalidFormat

/-- `Parse` (rut.go lines 70-130). -/
def Parse (s : List Char) : Except ParseError RUT :=
  if s = [] then .error .ErrEmptyRUT
  else
    match scan s [] with
    | .error e => .error e
    | .ok raw =>
      if raw.length < 5 then .error .ErrTooShort
      else if raw.length > 10 then .error .ErrTooLong
      else
        let dv := raw.getLastD ' '
        if raw.dropLast.any (fun c => c = 'K') then .error .ErrInvalidFormat
        else
          match parseNat raw.dropLast with
          | some num => .ok ⟨(num : Int), dv⟩
          | none => .error .ErrInvalidFormat

/-- `RUT.Validate` (rut.go lines 221-226).  The embedded `CalculateDV`
takes a `Nat`; the branch guarantees `r.Number > 0`, so `Int.toNat` is the
identity on the value passed. -/
def RUT.Validate (r : RUT) : Bool :=
  if r.Number ≤ 0 then false
  else r.DV = CalculateDV r.Number.toNat

/-- Top-level `Validate` (rut.go lines 60-66). -/
def Validate (s : List Char) : Bool :=
  match Parse s with
  | .error _ => false
  | .ok r => r.Validate

/-- The digit-to-character conversion used by `strconv.Itoa`. -/
def digitChar (d : Nat) : Char := Char.ofNat (48 + d)

/-- The digit-emitting loop of `strconv.Itoa` for a positive number,
most-significant digit first.  `fuel` is a structural termination measure
(the loop runs at most `n` times since `n / 10 < n`). -/
def toCharsF : Nat → Nat → List Char → List Char
  | 0, _, acc => acc
  | fuel + 1, n, acc =>
    if n = 0 then acc
    else toCharsF fuel (n / 10) (digitChar (n % 10) :: acc)

/-- `strconv.Itoa` on a non-negative value: decimal digit characters,
most significant first, with `0` rendered as `"0"`. -/
def Itoa (n : Nat) : List Char :=
  if n = 0 then ['0'] else toCharsF n n []

/-- `strconv.Itoa` on a Go `int`: a leading `-` for negative values. -/
def IntItoa (i : Int) : List Char :=
  if i < 0 then '-' :: Itoa i.natAbs else Itoa i.toNat

/-- The dot-inserting loop of `RUT.Format`'s `FormatComplete` branch
(rut.go lines 204-212): for each index `i`, write `numStr[i]` and then a
period when `distFromEnd = len(numStr) - i - 1` is positive and divisible
by three. -/
def dotFold (numStr : List Char) : List Char :=
  (List.range numStr.length).flatMap fun i =>
    let c := numStr.getD i ' '
    let distFromEnd := numStr.length - i - 1
    if 0 < distFromEnd ∧ distFromEnd % 3 = 0 then [c, '.'] else [c]

/-- The spec's grouping rule, in its own words: scanning the digit string
left to right, insert a period after a digit whenever the number of digits
remaining after it (not counting itself) is positive and a multiple of
three. -/
def dotSpec : List Char → List Char
  | [] => []
  | c :: rest =>
    if 0 < rest.length ∧ rest.length % 3 = 0 then c :: '.' :: dotSpec rest
    else c :: dotSpec rest

/-- `RUT.Format` (rut.go lines 177-218). -/
def RUT.Format (r : RUT) (style : FormatStyle) : List Char :=
  let numStr := IntItoa r.Number
  match style with
  | .FormatEscaped => numStr ++ [r.DV]
  | .FormatWithDash => numStr ++ ['-', r.DV]
  | .FormatComplete => dotFold numStr ++ ['-', r.DV]

/-- Top-level `Format` (rut.go lines 133-139): parse, then render. -/
def Format (s : List Char) (style : FormatStyle) : Except ParseError (List Char) :=
  match Parse s with
  | .error e => .error e
  | .ok r => .ok (r.Format style)

instance {ε α : Type} [DecidableEq ε] [DecidableEq α] : DecidableEq (Except ε α)
  | .ok a, .ok b =>
    if h : a = b then .isTrue (by rw [h]) else .isFalse (by intro hc; cases hc; exact h rfl)
  | .ok _, .error _ => .isFalse (by intro hc; cases hc)
  | .error _, .ok _ => .isFalse (by intro hc; cases hc)
  | .error e, .error f =>
    if h : e = f then .isTrue (by rw [h]) else .isFalse (by intro hc; cases hc; exact h rfl)

/-- The meaningful (separator-free) characters of an input. -/
def meaningful (l : List Char) : List Char :=
  l.filter fun c => !(c == '.' || c == '-')

/-- Normalization applied by the scanner to a valid character. -/
def normChar (c : Char) : Char := if c = 'k' ∨ c = 'K' then 'K' else c

lemma multipliers_mod_eq_specWeight (i : Nat) : multipliers (i % 6) = specWeight i := by
  have h : i % 6 = 0 ∨ i % 6 = 1 ∨ i % 6 = 2 ∨ i % 6 = 3 ∨ i % 6 = 4 ∨ i % 6 = 5 := by omega
  rcases h with h | h | h | h | h | h <;>
    simp [multipliers, specWeight, specWeights, h]

lemma dvSumF_spec :
    ∀ fuel n i sum, n ≤ fuel →
      dvSumF fuel n (i % 6) sum = sum + specSumGo (Nat.digits 10 n) i := by
  intro fuel
  induction fuel with
  | zero =>
    intro n i sum hn
    have : n = 0 := Nat.le_zero.mp hn
    subst this
    simp [dvSumF, specSumGo]
  | succ fuel ih =>
    intro n i sum hn
    by_cases hz : n = 0
    · subst hz
      simp [dvSumF, specSumGo]
    · have hstep : (i % 6 + 1) % 6 = (i + 1) % 6 := by omega
      have hdiv : n / 10 ≤ fuel := by
        have : n / 10 < n := Nat.div_lt_self (Nat.pos_of_ne_zero hz) (by norm_num)
        omega
      have hdig : Nat.digits 10 n = n % 10 :: Nat.digits 10 (n / 10) :=
        Nat.digits_def' (by norm_num) (Nat.pos_of_ne_zero hz)
      rw [show dvSumF (fuel + 1) n (i % 6) sum
            = dvSumF fuel (n / 10) ((i % 6 + 1) % 6)
                (sum + (n % 10) * multipliers (i % 6)) from by
            simp [dvSumF, hz]]
      rw [hstep, ih (n / 10) (i + 1) _ hdiv, hdig]
      rw [multipliers_mod_eq_specWeight]
      simp [specSumGo]
      ring

/-- C1.  `CalculateDV` agrees with the reference checksum written from the
spec: weighted digit sum with weights cyclically drawn from
`[2,3,4,5,6,7]` starting at the least-significant digit, `remainder = sum
mod 11`, `result = 11 - remainder`, with `11 ↦ '0'`, `10 ↦ 'K'`, other
results mapped to their digit character, and `body = 0` yielding `'0'`
directly. -/
theorem c1_calculateDV_matches_reference :
    (∀ body : Nat, CalculateDV body = referenceDV body) ∧ CalculateDV 0 = '0' := by
  constructor
  · intro body
    by_cases hz : body = 0
    · subst hz; rfl
    · have hsum : dvSumF body body 0 0 = referenceChecksum body := by
        have := dvSumF_spec body body 0 0 (le_refl body)
        simpa [referenceChecksum] using this
      simp only [CalculateDV, referenceDV, hz, if_neg, hsum]
  · rfl

/-! ### Character-level helper lemmas -/

lemma char_digit_toNat {c : Char} (h1 : '0' ≤ c) (h2 : c ≤ '9') :
    48 ≤ c.toNat ∧ c.toNat ≤ 57 := by
  simp only [Char.le_def] at h1 h2
  exact ⟨h1, h2⟩

lemma digit_not_sep {c : Char} (h : '0' ≤ c ∧ c ≤ '9') : ¬ (c = '.' ∨ c = '-') := by
  rintro (rfl | rfl) <;> exact absurd h (by decide)

lemma digit_isValid {c : Char} (h : '0' ≤ c ∧ c ≤ '9') : isValidRUTChar c = some c := by
  simp [isValidRUTChar, h]

lemma digit_normChar {c : Char} (h : '0' ≤ c ∧ c ≤ '9') : normChar c = c := by
  have hk : ¬ (c = 'k' ∨ c = 'K') := by
    rintro (rfl | rfl) <;> exact absurd h (by decide)
  simp [normChar, hk]

lemma valid_not_sep {c : Char} (h : (isValidRUTChar c).isSome) : ¬ (c = '.' ∨ c = '-') := by
  rintro (rfl | rfl) <;> exact absurd h (by decide)

lemma isValidRUTChar_eq_norm {c : Char} (h : (isValidRUTChar c).isSome) :
    isValidRUTChar c = some (normChar c) := by
  by_cases hd : '0' ≤ c ∧ c ≤ '9'
  · rw [digit_isValid hd, digit_normChar hd]
  · by_cases hk : c = 'k' ∨ c = 'K'
    · have hn : normChar c = 'K' := by simp [normChar, hk]
      simp [isValidRUTChar, hd, hk, hn]
    · simp [isValidRUTChar, hd, hk] at h

lemma isValidRUTChar_mem {c ch : Char} (h : isValidRUTChar c = some ch) :
    ('0' ≤ ch ∧ ch ≤ '9') ∨ ch = 'K' := by
  by_cases hd : '0' ≤ c ∧ c ≤ '9'
  · rw [digit_isValid hd] at h
    exact Or.inl (Option.some_injective _ h ▸ hd)
  · by_cases hk : c = 'k' ∨ c = 'K'
    · simp [isValidRUTChar, hd, hk] at h
      exact Or.inr h.symm
    · simp [isValidRUTChar, hd, hk] at h

/-! ### Lemmas about `meaningful` and `scan` -/

lemma meaningful_cons_sep {c : Char} {l : List Char} (h : c = '.' ∨ c = '-') :
    meaningful (c :: l) = meaningful l := by
  rcases h with rfl | rfl <;> simp [meaningful]

lemma meaningful_cons_nonsep {c : Char} {l : List Char} (h : ¬ (c = '.' ∨ c = '-')) :
    meaningful (c :: l) = c :: meaningful l := by
  push_neg at h
  simp [meaningful, h.1, h.2]

lemma scan_ok :
    ∀ (l acc : List Char),
      (∀ c ∈ l, (c = '.' ∨ c = '-') ∨ (isValidRUTChar c).isSome) →
      acc.length + (meaningful l).length ≤ 12 →
      scan l acc = .ok (acc ++ (meaningful l).map normChar) := by
  intro l
  induction l with
  | nil => intro acc _ _; simp [scan, meaningful]
  | cons c rest ih =>
    intro acc hval hlen
    rcases hval c (by simp) with hsep | hv
    · rw [meaningful_cons_sep hsep] at hlen ⊢
      rw [show scan (c :: rest) acc = scan rest acc from by simp [scan, hsep]]
      exact ih acc (fun x hx => hval x (by simp [hx])) hlen
    · have hsep := valid_not_sep hv
      rw [meaningful_cons_nonsep hsep] at hlen ⊢
      have hacc : ¬ 12 ≤ acc.length := by simp at hlen; omega
      rw [show scan (c :: rest) acc = scan rest (acc ++ [normChar c]) from by
        simp [scan, hsep, hacc, isValidRUTChar_eq_norm hv]]
      rw [ih (acc ++ [normChar c]) (fun x hx => hval x (by simp [hx])) (by simp at hlen ⊢; omega)]
      simp

lemma scan_invalid :
    ∀ (l acc : List Char),
      acc.length + (meaningful l).length ≤ 12 →
      (∃ c ∈ meaningful l, isValidRUTChar c = none) →
      scan l acc = .error .ErrInvalidFormat := by
  intro l
  induction l with
  | nil => intro acc _ hw; simp [meaningful] at hw
  | cons c rest ih =>
    intro acc hlen hw
    by_cases hsep : c = '.' ∨ c = '-'
    · rw [meaningful_cons_sep hsep] at hlen hw
      rw [show scan (c :: rest) acc = scan rest acc from by simp [scan, hsep]]
      exact ih acc hlen hw
    · rw [meaningful_cons_nonsep hsep] at hlen hw
      have hacc : ¬ 12 ≤ acc.length := by simp at hlen; omega
      cases hv : isValidRUTChar c with
      | none => simp [scan, hsep, hacc, hv]
      | some ch =>
        rw [show scan (c :: rest) acc = scan rest (acc ++ [ch]) from by
          simp [scan, hsep, hacc, hv]]
        apply ih (acc ++ [ch]) (by simp at hlen ⊢; omega)
        rcases hw with ⟨x, hx, hxn⟩
        rcases List.mem_cons.mp hx with rfl | hx'
        · rw [hv] at hxn; cases hxn
        · exact ⟨x, hx', hxn⟩

lemma scan_invalid_early :
    ∀ (l acc : List Char), acc.length ≤ 12 →
      (∃ i, i < 12 - acc.length ∧ i < (meaningful l).length ∧
        isValidRUTChar ((meaningful l).getD i ' ') = none) →
      scan l acc = .error .ErrInvalidFormat := by
  intro l
  induction l with
  | nil =>
    intro acc _ hw
    obtain ⟨i, _, him, _⟩ := hw
    simp [meaningful] at him
  | cons c rest ih =>
    intro acc hacc hw
    obtain ⟨i, hi12, him, hinv⟩ := hw
    by_cases hsep : c = '.' ∨ c = '-'
    · rw [meaningful_cons_sep hsep] at him hinv
      rw [show scan (c :: rest) acc = scan rest acc from by simp [scan, hsep]]
      exact ih acc hacc ⟨i, hi12, him, hinv⟩
    · rw [meaningful_cons_nonsep hsep] at him hinv
      have hacclt : acc.length < 12 := by omega
      have hna : ¬ 12 ≤ acc.length := by omega
      cases hv : isValidRUTChar c with
      | none => simp [scan, hsep, hna, hv]
      | some ch =>
        cases i with
        | zero =>
          rw [List.getD_cons_zero, hv] at hinv
          cases hinv
        | succ j =>
          rw [show scan (c :: rest) acc = scan rest (acc ++ [ch]) from by
            simp [scan, hsep, hna, hv]]
          apply ih (acc ++ [ch]) (by simp; omega)
          refine ⟨j, by simp; omega, by simp at him; omega, ?_⟩
          rw [List.getD_cons_succ] at hinv
          exact hinv

lemma scan_long :
    ∀ (l acc : List Char),
      acc.length ≤ 12 →
      (∀ c ∈ (meaningful l).take (12 - acc.length), (isValidRUTChar c).isSome) →
      13 ≤ acc.length + (meaningful l).length →
      scan l acc = .error .ErrTooLong := by
  intro l
  induction l with
  | nil => intro acc hacc _ hlen; simp [meaningful] at hlen; omega
  | cons c rest ih =>
    intro acc hacc hval hlen
    by_cases hsep : c = '.' ∨ c = '-'
    · rw [meaningful_cons_sep hsep] at hval hlen
      rw [show scan (c :: rest) acc = scan rest acc from by simp [scan, hsep]]
      exact ih acc hacc hval hlen
    · rw [meaningful_cons_nonsep hsep] at hval hlen
      by_cases h12 : 12 ≤ acc.length
      · simp [scan, hsep, h12]
      · have hc : (isValidRUTChar c).isSome := by
          apply hval c
          have : 12 - acc.length = (12 - acc.length - 1) + 1 := by omega
          rw [this, List.take_succ_cons]
          simp
        rw [show scan (c :: rest) acc = scan rest (acc ++ [normChar c]) from by
          simp [scan, hsep, h12, isValidRUTChar_eq_norm hc]]
        apply ih (acc ++ [normChar c]) (by simp; omega)
        · intro x hx
          apply hval x
          have he : 12 - (acc ++ [normChar c]).length = 11 - acc.length := by
            simp
          rw [he] at hx
          have ht : 12 - acc.length = (11 - acc.length) + 1 := by omega
          rw [ht, List.take_succ_cons]
          exact List.mem_cons_of_mem _ hx
        · simp at hlen ⊢; omega

lemma scan_ok_inv :
    ∀ (l acc raw : List Char),
      scan l acc = .ok raw →
      (∀ c ∈ acc, ('0' ≤ c ∧ c ≤ '9') ∨ c = 'K') →
      ∀ c ∈ raw, ('0' ≤ c ∧ c ≤ '9') ∨ c = 'K' := by
  intro l
  induction l with
  | nil =>
    intro acc raw hs hacc
    have h : acc = raw := by simpa [scan] using hs
    subst h
    exact hacc
  | cons c rest ih =>
    intro acc raw hs hacc
    by_cases hsep : c = '.' ∨ c = '-'
    · rw [show scan (c :: rest) acc = scan rest acc from by simp [scan, hsep]] at hs
      exact ih acc raw hs hacc
    · by_cases h12 : 12 ≤ acc.length
      · simp [scan, hsep, h12] at hs
      · cases hv : isValidRUTChar c with
        | none => simp [scan, hsep, h12, hv] at hs
        | some ch =>
          rw [show scan (c :: rest) acc = scan rest (acc ++ [ch]) from by
            simp [scan, hsep, h12, hv]] at hs
          apply ih (acc ++ [ch]) raw hs
          intro x hx
          rcases List.mem_append.mp hx with hx' | hx'
          · exact hacc x hx'
          · rw [List.mem_singleton.mp hx']
            exact isValidRUTChar_mem hv

lemma Parse_scan_ok {s raw : List Char} (hne : s ≠ []) (hs : scan s [] = .ok raw) :
    Parse s =
      if raw.length < 5 then .error .ErrTooShort
      else if raw.length > 10 then .error .ErrTooLong
      else if raw.dropLast.any (fun c => c = 'K') then .error .ErrInvalidFormat
      else
        match parseNat raw.dropLast with
        | some num => .ok ⟨(num : Int), raw.getLastD ' '⟩
        | none => .error .ErrInvalidFormat := by
  simp only [Parse, hne, hs, if_false]

lemma Parse_scan_err {s : List Char} {e : ParseError} (hne : s ≠ [])
    (hs : scan s [] = .error e) : Parse s = .error e := by
  simp only [Parse, hne, hs, if_false]

/-! ### Lemmas about `Itoa`, `parseNat` and the digit string -/

lemma digitChar_bounds {d : Nat} (h : d < 10) : '0' ≤ digitChar d ∧ digitChar d ≤ '9' := by
  interval_cases d <;> decide

lemma digitChar_toNat {d : Nat} (h : d < 10) : (digitChar d).toNat = 48 + d := by
  interval_cases d <;> decide

lemma toCharsF_eq :
    ∀ (fuel n : Nat) (acc : List Char), n ≤ fuel →
      toCharsF fuel n acc = ((Nat.digits 10 n).map digitChar).reverse ++ acc := by
  intro fuel
  induction fuel with
  | zero =>
    intro n acc hn
    have : n = 0 := Nat.le_zero.mp hn
    subst this
    simp [toCharsF]
  | succ fuel ih =>
    intro n acc hn
    by_cases hz : n = 0
    · subst hz; simp [toCharsF]
    · have hdiv : n / 10 ≤ fuel := by
        have : n / 10 < n := Nat.div_lt_self (Nat.pos_of_ne_zero hz) (by norm_num)
        omega
      rw [show toCharsF (fuel + 1) n acc
            = toCharsF fuel (n / 10) (digitChar (n % 10) :: acc) from by
          simp [toCharsF, hz]]
      rw [ih (n / 10) _ hdiv,
          Nat.digits_def' (by norm_num : (1:Nat) < 10) (Nat.pos_of_ne_zero hz)]
      simp

lemma Itoa_pos {n : Nat} (h : n ≠ 0) :
    Itoa n = ((Nat.digits 10 n).map digitChar).reverse := by
  rw [show Itoa n = toCharsF n n [] from by simp [Itoa, h], toCharsF_eq n n [] (le_refl n)]
  simp

lemma Itoa_length {n : Nat} (h : n ≠ 0) : (Itoa n).length = (Nat.digits 10 n).length := by
  simp [Itoa_pos h]

lemma Itoa_mem {n : Nat} (h : n ≠ 0) :
    ∀ c ∈ Itoa n, '0' ≤ c ∧ c ≤ '9' := by
  intro c hc
  rw [Itoa_pos h, List.mem_reverse, List.mem_map] at hc
  rcases hc with ⟨d, hd, rfl⟩
  exact digitChar_bounds (Nat.digits_lt_base (by norm_num) hd)

lemma foldl_digitChars :
    ∀ (ds : List Nat) (acc : Nat), (∀ d ∈ ds, d < 10) →
      List.foldl (fun a c => 10 * a + (c.toNat - 48)) acc ((ds.map digitChar).reverse)
        = acc * 10 ^ ds.length + Nat.ofDigits 10 ds := by
  intro ds
  induction ds with
  | nil => intro acc _; simp [Nat.ofDigits]
  | cons d t ih =>
    intro acc hd
    have hdlt : d < 10 := hd d (by simp)
    rw [List.map_cons, List.reverse_cons, List.foldl_append]
    rw [ih acc (fun x hx => hd x (by simp [hx]))]
    simp only [List.foldl_cons, List.foldl_nil, Nat.ofDigits_cons, List.length_cons]
    rw [digitChar_toNat hdlt]
    have : 48 + d - 48 = d := by omega
    rw [this, pow_succ]
    ring

lemma parseNat_Itoa {n : Nat} (h : n ≠ 0) : parseNat (Itoa n) = some n := by
  have hne : Itoa n ≠ [] := by
    rw [Itoa_pos h]
    simp
    exact Nat.digits_ne_nil_iff_ne_zero.mpr h
  have hall : (Itoa n).all (fun c => decide ('0' ≤ c ∧ c ≤ '9')) = true := by
    rw [List.all_eq_true]
    intro c hc
    exact decide_eq_true (Itoa_mem h c hc)
  rw [parseNat, if_neg (by simp [hne]; exact Itoa_mem h)]
  rw [Itoa_pos h, foldl_digitChars _ 0 (fun d hd => Nat.digits_lt_base (by norm_num) hd)]
  simp [Nat.ofDigits_digits]

lemma parseNat_all_digits {l : List Char} (hne : l ≠ [])
    (hall : ∀ c ∈ l, '0' ≤ c ∧ c ≤ '9') :
    parseNat l = some (l.foldl (fun acc c => 10 * acc + (c.toNat - 48)) 0) := by
  rw [parseNat, if_neg (by simp [hne]; exact hall)]

lemma foldl_digits_lt :
    ∀ (l : List Char) (acc : Nat), (∀ c ∈ l, '0' ≤ c ∧ c ≤ '9') →
      List.foldl (fun a c => 10 * a + (c.toNat - 48)) acc l < (acc + 1) * 10 ^ l.length := by
  intro l
  induction l with
  | nil => intro acc _; simp
  | cons c t ih =>
    intro acc hd
    have hc : c.toNat - 48 ≤ 9 := by
      obtain ⟨h1, h2⟩ := hd c (by simp)
      have := char_digit_toNat h1 h2
      omega
    rw [List.foldl_cons]
    calc List.foldl (fun a c => 10 * a + (c.toNat - 48)) (10 * acc + (c.toNat - 48)) t
        < (10 * acc + (c.toNat - 48) + 1) * 10 ^ t.length :=
          ih _ (fun x hx => hd x (by simp [hx]))
      _ ≤ ((acc + 1) * 10) * 10 ^ t.length := by
          apply Nat.mul_le_mul_right
          omega
      _ = (acc + 1) * 10 ^ (t.length + 1) := by rw [pow_succ]; ring
      _ = (acc + 1) * 10 ^ (c :: t).length := by simp

lemma parseNat_lt {l : List Char} {v : Nat} (h : parseNat l = some v) : v < 10 ^ l.length := by
  rw [parseNat] at h
  by_cases hc : l = [] ∨ ¬ l.all (fun c => decide ('0' ≤ c ∧ c ≤ '9'))
  · rw [if_pos hc] at h; cases h
  · rw [if_neg hc] at h
    have hall : ∀ c ∈ l, '0' ≤ c ∧ c ≤ '9' := by
      push_neg at hc
      simpa using hc.2
    have hlt := foldl_digits_lt l 0 hall
    have hv := Option.some.inj h
    rw [← hv]
    simpa using hlt

/-! ### Lemmas about the formatter -/

lemma dotFold_cons (c : Char) (rest : List Char) :
    dotFold (c :: rest)
      = (if 0 < rest.length ∧ rest.length % 3 = 0 then [c, '.'] else [c]) ++ dotFold rest := by
  simp only [dotFold, List.length_cons, List.range_succ_eq_map, List.flatMap_cons,
    List.flatMap_map]
  congr 1
  congr 1
  funext i
  simp [Nat.succ_sub_succ]

lemma dotFold_eq_dotSpec : ∀ l : List Char, dotFold l = dotSpec l := by
  intro l
  induction l with
  | nil => rfl
  | cons c rest ih =>
    rw [dotFold_cons, dotSpec, ih]
    by_cases h : 0 < rest.length ∧ rest.length % 3 = 0
    · simp [h]
    · simp [h]

lemma meaningful_append (a b : List Char) :
    meaningful (a ++ b) = meaningful a ++ meaningful b := by
  simp [meaningful]

lemma meaningful_of_nonsep {l : List Char} (h : ∀ c ∈ l, ¬ (c = '.' ∨ c = '-')) :
    meaningful l = l := by
  apply List.filter_eq_self.mpr
  intro c hc
  have := h c hc
  push_neg at this
  simp [this.1, this.2]

lemma meaningful_dotSpec :
    ∀ l : List Char, meaningful (dotSpec l) = meaningful l := by
  intro l
  induction l with
  | nil => rfl
  | cons c rest ih =>
    rw [dotSpec]
    by_cases h : 0 < rest.length ∧ rest.length % 3 = 0
    · rw [if_pos h]
      by_cases hc : c = '.' ∨ c = '-'
      · rw [meaningful_cons_sep hc, meaningful_cons_sep (Or.inl rfl), ih,
          meaningful_cons_sep hc]
      · rw [meaningful_cons_nonsep hc, meaningful_cons_sep (Or.inl rfl), ih,
          meaningful_cons_nonsep hc]
    · rw [if_neg h]
      by_cases hc : c = '.' ∨ c = '-'
      · rw [meaningful_cons_sep hc, ih, meaningful_cons_sep hc]
      · rw [meaningful_cons_nonsep hc, ih, meaningful_cons_nonsep hc]

lemma calculateDV_cases (n : Nat) :
    ('0' ≤ CalculateDV n ∧ CalculateDV n ≤ '9') ∨ CalculateDV n = 'K' := by
  rw [CalculateDV]
  by_cases hz : n = 0
  · rw [if_pos hz]; left; decide
  · rw [if_neg hz]
    simp only []
    set m := dvSumF n n 0 0 % 11 with hm
    have hlt : m < 11 := Nat.mod_lt _ (by norm_num)
    have h : 11 - m = 11 ∨ 11 - m = 10 ∨ (1 ≤ 11 - m ∧ 11 - m ≤ 9) := by omega
    rcases h with h | h | h
    · rw [h]; left; decide
    · rw [h]; right; decide
    · rw [if_neg (by omega), if_neg (by omega)]
      left
      have hcase : 11 - m = 1 ∨ 11 - m = 2 ∨ 11 - m = 3 ∨ 11 - m = 4 ∨ 11 - m = 5 ∨
          11 - m = 6 ∨ 11 - m = 7 ∨ 11 - m = 8 ∨ 11 - m = 9 := by omega
      rcases hcase with h' | h' | h' | h' | h' | h' | h' | h' | h' <;> rw [h'] <;> decide

lemma dvchar_props {c : Char} (h : ('0' ≤ c ∧ c ≤ '9') ∨ c = 'K') :
    isValidRUTChar c = some c ∧ ¬ (c = '.' ∨ c = '-') ∧ normChar c = c := by
  rcases h with h | rfl
  · exact ⟨digit_isValid h, digit_not_sep h, digit_normChar h⟩
  · exact ⟨by decide, by decide, by decide⟩

lemma digit_ne_K {c : Char} (h : '0' ≤ c ∧ c ≤ '9') : c ≠ 'K' := by
  rintro rfl
  exact absurd h (by decide)

/-- Common final stretch of a round-trip proof: an input whose meaningful
characters are a non-empty all-digit body of length 4 to 9 followed by a
digit-or-`K` check character parses to exactly that body and check. -/
lemma Parse_of_meaningful {s body : List Char} {dv : Char}
    (hne : s ≠ [])
    (hchars : ∀ c ∈ s, (c = '.' ∨ c = '-') ∨ (isValidRUTChar c).isSome)
    (hms : meaningful s = body ++ [dv])
    (hbody : ∀ c ∈ body, '0' ≤ c ∧ c ≤ '9')
    (hdv : ('0' ≤ dv ∧ dv ≤ '9') ∨ dv = 'K')
    (hlen1 : 4 ≤ body.length) (hlen2 : body.length ≤ 9) :
    Parse s = .ok ⟨((body.foldl (fun acc c => 10 * acc + (c.toNat - 48)) 0 : Nat) : Int), dv⟩ := by
  have hmap : (meaningful s).map normChar = body ++ [dv] := by
    rw [hms, List.map_append]
    congr 1
    · rw [List.map_congr_left (fun c hc => digit_normChar (hbody c hc))]
      exact List.map_id body
    · simp [(dvchar_props hdv).2.2]
  have hscan : scan s [] = .ok (body ++ [dv]) := by
    rw [scan_ok s [] hchars (by rw [hms]; simp; omega)]
    rw [hmap]
    rfl
  rw [Parse_scan_ok hne hscan]
  rw [if_neg (by simp; omega), if_neg (by simp; omega)]
  rw [List.dropLast_concat]
  rw [if_neg (by
    simp only [List.any_eq_true, not_exists]
    intro c
    rintro ⟨hc, hk⟩
    exact absurd (of_decide_eq_true hk) (digit_ne_K (hbody c hc)))]
  rw [parseNat_all_digits (by intro h; rw [h] at hlen1; simp at hlen1) hbody]
  simp

lemma dotSpec_mem : ∀ (l : List Char), ∀ c ∈ dotSpec l, c = '.' ∨ c ∈ l := by
  intro l
  induction l with
  | nil => intro c hc; cases hc
  | cons a rest ih =>
    intro c hc
    rw [dotSpec] at hc
    by_cases h : 0 < rest.length ∧ rest.length % 3 = 0
    · rw [if_pos h] at hc
      rcases List.mem_cons.mp hc with rfl | hc2
      · right; simp
      · rcases List.mem_cons.mp hc2 with rfl | hc3
        · left; rfl
        · rcases ih c hc3 with h' | h'
          · exact Or.inl h'
          · right; simp [h']
    · rw [if_neg h] at hc
      rcases List.mem_cons.mp hc with rfl | hc2
      · right; simp
      · rcases ih c hc2 with h' | h'
        · exact Or.inl h'
        · right; simp [h']

/-- Round-trip: an identifier whose body renders to 4-9 digits and whose
check character is a digit or `K` parses back from any of the three
formats to exactly itself. -/
lemma Parse_Format {r : RUT} (st : FormatStyle)
    (h1 : (1000 : Int) ≤ r.Number) (h2 : r.Number ≤ (999999999 : Int))
    (hdv : ('0' ≤ r.DV ∧ r.DV ≤ '9') ∨ r.DV = 'K') :
    Parse (r.Format st) = .ok r := by
  have hnn : (0 : Int) ≤ r.Number := by omega
  set n := r.Number.toNat with hn
  have hnum : r.Number = (n : Int) := (Int.toNat_of_nonneg hnn).symm
  have h1n : 1000 ≤ n := by rw [hnum] at h1; exact_mod_cast h1
  have h2n : n ≤ 999999999 := by rw [hnum] at h2; exact_mod_cast h2
  have hn0 : n ≠ 0 := by omega
  have hno : IntItoa r.Number = Itoa n := by
    rw [IntItoa, if_neg (not_lt.mpr hnn)]
  have hdigs : ∀ c ∈ Itoa n, '0' ≤ c ∧ c ≤ '9' := Itoa_mem hn0
  have hlen_hi : (Itoa n).length ≤ 9 := by
    rw [Itoa_length hn0]
    by_contra hcon
    push_neg at hcon
    have hle := Nat.base_pow_length_digits_le 10 n (by norm_num) hn0
    have : (10 : Nat) ^ 10 ≤ 10 ^ (Nat.digits 10 n).length :=
      Nat.pow_le_pow_right (by norm_num) hcon
    have h10 : (10 : Nat) ^ 10 = 10000000000 := by norm_num
    omega
  have hlen_lo : 4 ≤ (Itoa n).length := by
    rw [Itoa_length hn0]
    by_contra hcon
    push_neg at hcon
    have hlt := Nat.lt_base_pow_length_digits (b := 10) (m := n) (by norm_num)
    have : (10 : Nat) ^ (Nat.digits 10 n).length ≤ 10 ^ 3 :=
      Nat.pow_le_pow_right (by norm_num) (by omega)
    have h10 : (10 : Nat) ^ 3 = 1000 := by norm_num
    omega
  have hfold : (Itoa n).foldl (fun acc c => 10 * acc + (c.toNat - 48)) 0 = n := by
    have ha := parseNat_Itoa hn0
    have hb := parseNat_all_digits
      (by intro h; rw [h] at hlen_lo; simp at hlen_lo) hdigs
    rw [ha] at hb
    exact (Option.some.inj hb).symm
  have key : ∀ s : List Char, s ≠ [] →
      (∀ c ∈ s, (c = '.' ∨ c = '-') ∨ (isValidRUTChar c).isSome) →
      meaningful s = Itoa n ++ [r.DV] →
      Parse s = .ok r := by
    intro s hne hchars hms
    rw [Parse_of_meaningful hne hchars hms hdigs hdv hlen_lo hlen_hi, hfold, ← hnum]
  have hchar_digits : ∀ c ∈ Itoa n, (c = '.' ∨ c = '-') ∨ (isValidRUTChar c).isSome := by
    intro c hc
    exact Or.inr (by rw [digit_isValid (hdigs c hc)]; rfl)
  have hdv_valid : (isValidRUTChar r.DV).isSome := by
    rw [(dvchar_props hdv).1]; rfl
  have hm_digits : meaningful (Itoa n) = Itoa n :=
    meaningful_of_nonsep (fun c hc => digit_not_sep (hdigs c hc))
  have hm_dv : meaningful [r.DV] = [r.DV] :=
    meaningful_of_nonsep (fun c hc => by
      rw [List.mem_singleton.mp hc]; exact (dvchar_props hdv).2.1)
  cases st with
  | FormatEscaped =>
    rw [show r.Format .FormatEscaped = Itoa n ++ [r.DV] from by
      simp [RUT.Format, hno]]
    apply key _ (by simp)
    · intro c hc
      rcases List.mem_append.mp hc with hc' | hc'
      · exact hchar_digits c hc'
      · rw [List.mem_singleton.mp hc']; exact Or.inr hdv_valid
    · rw [meaningful_append, hm_digits, hm_dv]
  | FormatWithDash =>
    rw [show r.Format .FormatWithDash = Itoa n ++ ['-', r.DV] from by
      simp [RUT.Format, hno]]
    apply key _ (by simp)
    · intro c hc
      rcases List.mem_append.mp hc with hc' | hc'
      · exact hchar_digits c hc'
      · rcases List.mem_cons.mp hc' with rfl | hc''
        · exact Or.inl (Or.inr rfl)
        · rw [List.mem_singleton.mp hc'']; exact Or.inr hdv_valid
    · rw [meaningful_append, hm_digits, meaningful_cons_sep (Or.inr rfl), hm_dv]
  | FormatComplete =>
    rw [show r.Format .FormatComplete = dotFold (Itoa n) ++ ['-', r.DV] from by
      simp [RUT.Format, hno]]
    apply key _ (by simp)
    · intro c hc
      rcases List.mem_append.mp hc with hc' | hc'
      · rw [dotFold_eq_dotSpec] at hc'
        rcases dotSpec_mem _ c hc' with rfl | hc''
        · exact Or.inl (Or.inl rfl)
        · exact hchar_digits c hc''
      · rcases List.mem_cons.mp hc' with rfl | hc''
        · exact Or.inl (Or.inr rfl)
        · rw [List.mem_singleton.mp hc'']; exact Or.inr hdv_valid
    · rw [meaningful_append, dotFold_eq_dotSpec, meaningful_dotSpec, hm_digits,
        meaningful_cons_sep (Or.inr rfl), hm_dv]

/-! ### Claim theorems -/

/-- C2.  `RUT.Validate` is false for every identifier with `Number ≤ 0`,
and otherwise true exactly when `DV` equals `CalculateDV Number`; the
top-level `Validate` is exactly the composition of `Parse` with
`RUT.Validate` (stated as the composition equation and its two
consequences: `false` on every parse error, the member result on every
parse success), and a checksum mismatch is never a parse error: such a
text parses successfully (`Parse s = .ok r` is the hypothesis) and merely
validates to false. -/
theorem c2_validate_semantics :
    (∀ r : RUT, r.Number ≤ 0 → r.Validate = false)
    ∧ (∀ r : RUT, 0 < r.Number → (r.Validate = true ↔ r.DV = CalculateDV r.Number.toNat))
    ∧ (∀ s : List Char, Validate s =
        match Parse s with
        | .error _ => false
        | .ok r => r.Validate)
    ∧ (∀ (s : List Char) (e : ParseError), Parse s = .error e → Validate s = false)
    ∧ (∀ (s : List Char) (r : RUT), Parse s = .ok r → Validate s = r.Validate)
    ∧ (∀ (s : List Char) (r : RUT), Parse s = .ok r →
        r.DV ≠ CalculateDV r.Number.toNat → Validate s = false) := by
  refine ⟨?_, ?_, ?_, ?_, ?_, ?_⟩
  · intro r h
    simp only [RUT.Validate]
    rw [if_pos h]
  · intro r h
    simp only [RUT.Validate]
    rw [if_neg (not_le.mpr h)]
    exact ⟨of_decide_eq_true, decide_eq_true⟩
  · intro s
    rfl
  · intro s e h
    simp only [Validate]
    rw [h]
  · intro s r h
    simp only [Validate]
    rw [h]
  · intro s r h hne
    simp only [Validate]
    rw [h]
    simp only [RUT.Validate]
    by_cases h0 : r.Number ≤ 0
    · rw [if_pos h0]
    · rw [if_neg h0]
      exact decide_eq_false hne

theorem c2_witness :
    RUT.Validate ⟨0, '0'⟩ = false
    ∧ RUT.Validate ⟨12345678, '5'⟩ = true
    ∧ Validate ['1', '2', 'a'] = false
    ∧ Validate ['1', '2', '.', '3', '4', '5', '.', '6', '7', '8', '-', '0'] = false := by
  refine ⟨c2_validate_semantics.1 ⟨0, '0'⟩ (by norm_num), ?_, ?_, ?_⟩
  · exact (c2_validate_semantics.2.1 ⟨12345678, '5'⟩ (by norm_num)).mpr (by decide)
  · exact c2_validate_semantics.2.2.2.1 ['1', '2', 'a'] .ErrInvalidFormat (by decide)
  · exact c2_validate_semantics.2.2.2.2.2 _ ⟨12345678, '0'⟩ (by decide) (by decide)

/-- C3 counterexample.  `(1, '9')` is a valid identifier
(`CalculateDV 1 = '9'`, and `RUT.Validate` accepts it), yet `Parse` of its
`FormatEscaped` rendering fails with `ErrTooShort` instead of recovering
it, so the round-trip does not hold for every valid identifier. -/
theorem c3_roundtrip_counterexample :
    CalculateDV 1 = '9'
    ∧ RUT.Validate ⟨1, '9'⟩ = true
    ∧ Parse (RUT.Format ⟨1, '9'⟩ .FormatEscaped) = .error .ErrTooShort := by
  refine ⟨by decide, by decide, by decide⟩

/-- C3 amended.  For every valid identifier whose body renders to between
four and nine digits (`1000 ≤ Number ≤ 999999999`, so the rendering has 5
to 10 meaningful characters), `Parse` of `RUT.Format` in each of the three
styles succeeds and recovers the same body and check character. -/
theorem c3_roundtrip_amended (r : RUT) (st : FormatStyle)
    (h1 : (1000 : Int) ≤ r.Number) (h2 : r.Number ≤ (999999999 : Int))
    (hdv : r.DV = CalculateDV r.Number.toNat) :
    Parse (r.Format st) = .ok r := by
  apply Parse_Format st h1 h2
  rw [hdv]
  exact calculateDV_cases r.Number.toNat

theorem c3_witness :
    Parse (RUT.Format ⟨12345678, '5'⟩ .FormatComplete) = .ok ⟨12345678, '5'⟩
    ∧ Parse (RUT.Format ⟨12345678, '5'⟩ .FormatEscaped) = .ok ⟨12345678, '5'⟩
    ∧ Parse (RUT.Format ⟨12345678, '5'⟩ .FormatWithDash) = .ok ⟨12345678, '5'⟩ :=
  ⟨c3_roundtrip_amended ⟨12345678, '5'⟩ .FormatComplete (by norm_num) (by norm_num) (by decide),
   c3_roundtrip_amended ⟨12345678, '5'⟩ .FormatEscaped (by norm_num) (by norm_num) (by decide),
   c3_roundtrip_amended ⟨12345678, '5'⟩ .FormatWithDash (by norm_num) (by norm_num) (by decide)⟩

/-- C6.  `RUT.Format` with the `FormatComplete` style produces the decimal
digits of `Number` with a period inserted after a digit exactly when the
count of digits remaining after it is positive and a multiple of three
(the rule `dotSpec`, written from the spec's words), followed by a hyphen
and the check character; and `Format "123456785" Complete` returns
`"12.345.678-5"`. -/
theorem c6_format_complete :
    (∀ r : RUT, 0 ≤ r.Number →
        r.Format .FormatComplete = dotSpec (Itoa r.Number.toNat) ++ ['-', r.DV])
    ∧ Format ['1', '2', '3', '4', '5', '6', '7', '8', '5'] .FormatComplete
        = .ok ['1', '2', '.', '3', '4', '5', '.', '6', '7', '8', '-', '5'] := by
  constructor
  · intro r h
    rw [show r.Format .FormatComplete = dotFold (IntItoa r.Number) ++ ['-', r.DV] from rfl]
    rw [dotFold_eq_dotSpec, IntItoa, if_neg (not_lt.mpr h)]
  · decide

theorem c6_witness :
    RUT.Format ⟨12345678, '5'⟩ .FormatComplete
      = dotSpec (Itoa ((12345678 : Int)).toNat) ++ ['-', '5'] :=
  c6_format_complete.1 ⟨12345678, '5'⟩ (by norm_num)

/-- C8.  A non-empty input consisting only of the separator characters
`.` and `-` parses to `ErrTooShort`, not `ErrEmptyRUT`: emptiness is
tested on the raw string before separators are stripped. -/
theorem c8_separators_only_too_short (s : List Char) (hne : s ≠ [])
    (hsep : ∀ c ∈ s, c = '.' ∨ c = '-') :
    Parse s = .error .ErrTooShort := by
  have hm : meaningful s = [] := by
    rw [meaningful, List.filter_eq_nil_iff]
    intro c hc
    rcases hsep c hc with rfl | rfl <;> decide
  have hscan := scan_ok s [] (fun c hc => Or.inl (hsep c hc)) (by rw [hm]; simp)
  rw [hm] at hscan
  simp only [List.map_nil, List.append_nil] at hscan
  rw [Parse_scan_ok hne hscan]
  rfl

theorem c8_witness : Parse ['.', '-'] = .error .ErrTooShort :=
  c8_separators_only_too_short ['.', '-'] (by decide) (by decide)

/-- C10.  `Parse` accepts bodies with leading zeros and discards them in
the numeric value: `"00.010-9"` parses to `(10, '9')`, its `FormatEscaped`
rendering `"109"` differs from the input with separators removed
(`"000109"`), and that rendering itself fails to re-parse (too short). -/
theorem c10_leading_zeros :
    Parse ['0', '0', '.', '0', '1', '0', '-', '9'] = .ok ⟨10, '9'⟩
    ∧ RUT.Format ⟨10, '9'⟩ .FormatEscaped = ['1', '0', '9']
    ∧ RUT.Format ⟨10, '9'⟩ .FormatEscaped ≠ meaningful ['0', '0', '.', '0', '1', '0', '-', '9']
    ∧ Parse (RUT.Format ⟨10, '9'⟩ .FormatEscaped) = .error .ErrTooShort := by
  refine ⟨by decide, by decide, by decide, by decide⟩

lemma mem_meaningful {s : List Char} {c : Char} (h : c ∈ meaningful s) :
    c ∈ s ∧ ¬ (c = '.' ∨ c = '-') := by
  rw [meaningful, List.mem_filter] at h
  obtain ⟨h1, h2⟩ := h
  refine ⟨h1, ?_⟩
  rintro (rfl | rfl) <;> simp at h2

lemma mem_meaningful_of_mem {s : List Char} {c : Char} (hc : c ∈ s)
    (hns : ¬ (c = '.' ∨ c = '-')) : c ∈ meaningful s := by
  rw [meaningful, List.mem_filter]
  push_neg at hns
  simp [hc, hns.1, hns.2]

lemma meaningful_valid {s : List Char}
    (hchars : ∀ c ∈ s, (c = '.' ∨ c = '-') ∨ (isValidRUTChar c).isSome) :
    ∀ c ∈ meaningful s, (isValidRUTChar c).isSome := by
  intro c hc
  obtain ⟨hs, hns⟩ := mem_meaningful hc
  rcases hchars c hs with h | h
  · exact absurd h hns
  · exact h

lemma ne_nil_of_meaningful {s : List Char} (h : meaningful s ≠ []) : s ≠ [] := by
  intro hs
  subst hs
  exact h rfl

/-- C4.  On inputs whose meaningful characters all come from the allowed
alphabet and whose normalized body (all meaningful characters but the
last) is a non-empty digit string — so any `K` is in final position and
the body is parseable — `Parse` fails with `ErrTooShort` below 5
meaningful characters, fails with `ErrTooLong` above 10, and succeeds at
exactly 5 and exactly 10, independently of the check digit's value. -/
theorem c4_length_boundaries (s : List Char)
    (hchars : ∀ c ∈ s, (c = '.' ∨ c = '-') ∨ (isValidRUTChar c).isSome)
    (hbody1 : ((meaningful s).map normChar).dropLast ≠ [])
    (hbody2 : ∀ c ∈ ((meaningful s).map normChar).dropLast, '0' ≤ c ∧ c ≤ '9') :
    ((meaningful s).length < 5 → Parse s = .error .ErrTooShort)
    ∧ (10 < (meaningful s).length → Parse s = .error .ErrTooLong)
    ∧ ((meaningful s).length = 5 ∨ (meaningful s).length = 10 →
        ∃ r : RUT, Parse s = .ok r) := by
  have hne : s ≠ [] := by
    apply ne_nil_of_meaningful
    intro hm
    rw [hm] at hbody1
    simp at hbody1
  refine ⟨?_, ?_, ?_⟩
  · intro hlen
    have hscan := scan_ok s [] hchars (by simp; omega)
    rw [Parse_scan_ok hne (by simpa using hscan)]
    rw [if_pos (by simp; omega)]
  · intro hlen
    by_cases h12 : (meaningful s).length ≤ 12
    · have hscan := scan_ok s [] hchars (by simp; omega)
      rw [Parse_scan_ok hne (by simpa using hscan)]
      rw [if_neg (by simp; omega), if_pos (by simp; omega)]
    · apply Parse_scan_err hne
      apply scan_long s [] (by simp)
      · intro c hc
        exact meaningful_valid hchars c (List.mem_of_mem_take (by simpa using hc))
      · simp; omega
  · intro hlen
    have hb : 5 ≤ (meaningful s).length ∧ (meaningful s).length ≤ 10 := by
      rcases hlen with h | h <;> omega
    have hscan := scan_ok s [] hchars (by simp; omega)
    rw [Parse_scan_ok hne (by simpa using hscan)]
    rw [if_neg (by simp; omega), if_neg (by simp; omega)]
    rw [if_neg (by
      simp only [List.any_eq_true, not_exists]
      intro c
      rintro ⟨hc, hk⟩
      exact absurd (of_decide_eq_true hk) (digit_ne_K (hbody2 c hc)))]
    rw [parseNat_all_digits hbody1 hbody2]
    exact ⟨_, rfl⟩

theorem c4_witness :
    Parse ['1', '-', '9'] = .error .ErrTooShort
    ∧ Parse ['1', '2', '3', '4', '5', '6', '7', '8', '9', '0', '1'] = .error .ErrTooLong
    ∧ (∃ r : RUT, Parse ['1', '2', '3', '4', '-', '5'] = .ok r) := by
  refine ⟨(c4_length_boundaries ['1', '-', '9'] (by decide) (by decide)
            (by decide)).1 (by decide),
          (c4_length_boundaries ['1', '2', '3', '4', '5', '6', '7', '8', '9', '0', '1']
            (by decide) (by decide) (by decide)).2.1 (by decide),
          (c4_length_boundaries ['1', '2', '3', '4', '-', '5'] (by decide) (by decide)
            (by decide)).2.2 (by decide)⟩

/-- C5 counterexample.  In `"K111"` the letter `K` sits at meaningful
position 0 of 4, i.e. not in final position, yet `Parse` reports
`ErrTooShort`, not `ErrInvalidFormat`: the length check runs before the
misplaced-check-letter check. -/
theorem c5_misplaced_k_counterexample :
    (meaningful ['K', '1', '1', '1']).length = 4
    ∧ (meaningful ['K', '1', '1', '1']).getD 0 ' ' = 'K'
    ∧ Parse ['K', '1', '1', '1'] = .error .ErrTooShort
    ∧ Parse ['K', '1', '1', '1'] ≠ .error .ErrInvalidFormat := by
  refine ⟨by decide, by decide, by decide, by decide⟩

/-- C5 amended.  For inputs with 5 to 10 meaningful characters, a `K` or
`k` at any meaningful position other than the final one makes `Parse`
fail with `ErrInvalidFormat`, case-insensitively and regardless of the
position. -/
theorem c5_misplaced_k_amended (s : List Char)
    (hlen1 : 5 ≤ (meaningful s).length) (hlen2 : (meaningful s).length ≤ 10)
    (hk : ∃ i, i + 1 < (meaningful s).length ∧
      ((meaningful s).getD i ' ' = 'K' ∨ (meaningful s).getD i ' ' = 'k')) :
    Parse s = .error .ErrInvalidFormat := by
  have hne : s ≠ [] := by
    apply ne_nil_of_meaningful
    intro hm
    rw [hm] at hlen1
    simp at hlen1
  by_cases hval : ∀ c ∈ meaningful s, (isValidRUTChar c).isSome
  · have hchars : ∀ c ∈ s, (c = '.' ∨ c = '-') ∨ (isValidRUTChar c).isSome := by
      intro c hc
      by_cases hsep : c = '.' ∨ c = '-'
      · exact Or.inl hsep
      · exact Or.inr (hval c (mem_meaningful_of_mem hc hsep))
    have hscan := scan_ok s [] hchars (by simp; omega)
    have hany : (((meaningful s).map normChar).dropLast.any fun c => decide (c = 'K')) = true := by
      obtain ⟨i, hi, hK⟩ := hk
      have hilen : i < (meaningful s).length := by omega
      rw [List.getD_eq_getElem _ ' ' hilen] at hK
      have hidrop : i < ((meaningful s).map normChar).dropLast.length := by
        simp; omega
      have hmem : 'K' ∈ ((meaningful s).map normChar).dropLast := by
        rw [List.mem_iff_getElem]
        refine ⟨i, hidrop, ?_⟩
        rw [List.getElem_dropLast, List.getElem_map]
        rcases hK with hK | hK <;> simp only [hK] <;> decide
      rw [List.any_eq_true]
      exact ⟨'K', hmem, by decide⟩
    rw [Parse_scan_ok hne (by simpa using hscan)]
    rw [if_neg (by simp; omega), if_neg (by simp; omega)]
    rw [if_pos hany]
  · push_neg at hval
    obtain ⟨c, hc, hcv⟩ := hval
    apply Parse_scan_err hne
    apply scan_invalid s [] (by simp; omega)
    exact ⟨c, hc, Option.not_isSome_iff_eq_none.mp (by simpa using hcv)⟩

theorem c5_witness :
    Parse ['1', '2', '.', '3', '4', 'K', '.', '6', '7', '8', '-', '5']
      = .error .ErrInvalidFormat :=
  c5_misplaced_k_amended _ (by decide) (by decide) ⟨4, by decide, by decide⟩

/-- C7 counterexample.  `"12a4"` is non-empty, has fewer than 5 meaningful
characters, and contains the invalid character `a`; the claim predicts
`ErrTooShort`, but `Parse` reports `ErrInvalidFormat`: character validity
is checked during the scan, before the length bounds. -/
theorem c7_priority_counterexample :
    (meaningful ['1', '2', 'a', '4']).length < 5
    ∧ ('a' ∈ ['1', '2', 'a', '4'] ∧ isValidRUTChar 'a' = none)
    ∧ Parse ['1', '2', 'a', '4'] = .error .ErrInvalidFormat
    ∧ Parse ['1', '2', 'a', '4'] ≠ .error .ErrTooShort := by
  refine ⟨by decide, ⟨by decide, by decide⟩, by decide, by decide⟩

/-- C7 amended.  Error priority as the code implements it: empty input is
reported first; during the single left-to-right scan, an invalid character
anywhere among the first twelve meaningful characters yields
`ErrInvalidFormat` — regardless of the total length, so even when the
input is also too short or too long — while a thirteenth meaningful
character with the first twelve valid yields `ErrTooLong`; only after a
fully valid scan are the too-short (fewer than 5) and too-long (more than
10) bounds applied.  In particular a non-empty input with fewer than 5
meaningful characters containing an invalid character yields
`ErrInvalidFormat`, not `ErrTooShort`. -/
theorem c7_priority_amended :
    Parse [] = .error .ErrEmptyRUT
    ∧ (∀ s : List Char, (∃ i, i < 12 ∧ i < (meaningful s).length ∧
          isValidRUTChar ((meaningful s).getD i ' ') = none) →
        Parse s = .error .ErrInvalidFormat)
    ∧ (∀ s : List Char, (∀ c ∈ (meaningful s).take 12, (isValidRUTChar c).isSome) →
        13 ≤ (meaningful s).length → Parse s = .error .ErrTooLong)
    ∧ (∀ s : List Char, s ≠ [] → (∀ c ∈ meaningful s, (isValidRUTChar c).isSome) →
        ((meaningful s).length < 5 → Parse s = .error .ErrTooShort)
        ∧ (10 < (meaningful s).length → Parse s = .error .ErrTooLong))
    ∧ (∀ s : List Char, (meaningful s).length < 5 →
        (∃ c ∈ meaningful s, isValidRUTChar c = none) →
        Parse s = .error .ErrInvalidFormat) := by
  refine ⟨rfl, ?_, ?_, ?_, ?_⟩
  · intro s hw
    obtain ⟨i, hi12, him, hinv⟩ := hw
    have hne : s ≠ [] := by
      apply ne_nil_of_meaningful
      intro hm
      rw [hm] at him
      simp at him
    exact Parse_scan_err hne
      (scan_invalid_early s [] (by simp) ⟨i, by simpa using hi12, him, hinv⟩)
  · intro s hval hlen
    have hne : s ≠ [] := by
      apply ne_nil_of_meaningful
      intro hm
      rw [hm] at hlen
      simp at hlen
    exact Parse_scan_err hne (scan_long s [] (by simp) (by simpa using hval) (by simpa using hlen))
  · intro s hne hval
    have hchars : ∀ c ∈ s, (c = '.' ∨ c = '-') ∨ (isValidRUTChar c).isSome := by
      intro c hc
      by_cases hsep : c = '.' ∨ c = '-'
      · exact Or.inl hsep
      · exact Or.inr (hval c (mem_meaningful_of_mem hc hsep))
    constructor
    · intro hlen
      have hscan := scan_ok s [] hchars (by simp; omega)
      rw [Parse_scan_ok hne (by simpa using hscan)]
      rw [if_pos (by simp; omega)]
    · intro hlen
      by_cases h12 : (meaningful s).length ≤ 12
      · have hscan := scan_ok s [] hchars (by simp; omega)
        rw [Parse_scan_ok hne (by simpa using hscan)]
        rw [if_neg (by simp; omega), if_pos (by simp; omega)]
      · apply Parse_scan_err hne
        apply scan_long s [] (by simp)
        · intro c hc
          exact hval c (List.mem_of_mem_take (by simpa using hc))
        · simp; omega
  · intro s hlen hinv
    obtain ⟨c, hc, hcv⟩ := hinv
    have hne : s ≠ [] := by
      apply ne_nil_of_meaningful
      intro hm
      rw [hm] at hc
      cases hc
    exact Parse_scan_err hne (scan_invalid s [] (by simp; omega) ⟨c, hc, hcv⟩)

theorem c7_witness :
    Parse ['1', '9'] = .error .ErrTooShort
    ∧ Parse ['1', '2', '3', '4', '5', '6', '7', '8', '9', '0', 'a']
        = .error .ErrInvalidFormat
    ∧ Parse ['1', '2', '3', '4', '5', '6', '7', '8', '9', '0', '1', '2', '3']
        = .error .ErrTooLong
    ∧ Parse ['1', 'a'] = .error .ErrInvalidFormat := by
  refine ⟨(c7_priority_amended.2.2.2.1 ['1', '9'] (by decide) (by decide)).1 (by decide),
          c7_priority_amended.2.1 _ ⟨10, by decide, by decide, by decide⟩,
          c7_priority_amended.2.2.1 _ (by decide) (by decide),
          c7_priority_amended.2.2.2.2 ['1', 'a'] (by decide) ⟨'a', by decide, by decide⟩⟩

/-- C9.  Whenever `Parse` succeeds, the resulting `RUT` satisfies
`0 ≤ Number ≤ 999999999` (the body holds at most nine digits) and `DV` is
one of `'0'`-`'9'` or uppercase `'K'`; in particular `"0000-0"` parses to
`Number = 0`, a value `RUT.Validate` subsequently rejects. -/
theorem c9_parse_invariants :
    (∀ (s : List Char) (r : RUT), Parse s = .ok r →
        (0 ≤ r.Number ∧ r.Number ≤ 999999999)
        ∧ (('0' ≤ r.DV ∧ r.DV ≤ '9') ∨ r.DV = 'K'))
    ∧ Parse ['0', '0', '0', '0', '-', '0'] = .ok ⟨0, '0'⟩
    ∧ RUT.Validate ⟨0, '0'⟩ = false := by
  refine ⟨?_, by decide, by decide⟩
  intro s r h
  by_cases hne : s = []
  · rw [Parse, if_pos hne] at h; cases h
  · cases hscan : scan s [] with
    | error e => rw [Parse_scan_err hne hscan] at h; cases h
    | ok raw =>
      rw [Parse_scan_ok hne hscan] at h
      by_cases h5 : raw.length < 5
      · rw [if_pos h5] at h; cases h
      · rw [if_neg h5] at h
        by_cases h10 : raw.length > 10
        · rw [if_pos h10] at h; cases h
        · rw [if_neg h10] at h
          by_cases hK : raw.dropLast.any (fun c => decide (c = 'K')) = true
          · rw [if_pos hK] at h; cases h
          · rw [if_neg hK] at h
            cases hp : parseNat raw.dropLast with
            | none => rw [hp] at h; cases h
            | some num =>
              rw [hp] at h
              have hr : r = ⟨(num : Int), raw.getLastD ' '⟩ := (Except.ok.inj h).symm
              subst hr
              have hraw_chars := scan_ok_inv s [] raw hscan (by simp)
              constructor
              · constructor
                · exact Int.natCast_nonneg num
                · have hlt := parseNat_lt hp
                  rw [List.length_dropLast] at hlt
                  have hpow : (10 : Nat) ^ (raw.length - 1) ≤ 10 ^ 9 :=
                    Nat.pow_le_pow_right (by norm_num) (by omega)
                  have h9 : (10 : Nat) ^ 9 = 1000000000 := by norm_num
                  have hnum : num ≤ 999999999 := by omega
                  show ((num : Int)) ≤ 999999999
                  exact_mod_cast hnum
              · have hrne : raw ≠ [] := by
                  intro hcon
                  rw [hcon] at h5
                  simp at h5
                have hlast : raw.getLastD ' ' = raw.getLast hrne := by
                  rw [List.getLastD_eq_getLast?, List.getLast?_eq_getLast _ hrne]
                  rfl
                rw [show (RUT.mk (num : Int) (raw.getLastD ' ')).DV = raw.getLastD ' ' from rfl]
                rw [hlast]
                exact hraw_chars _ (List.getLast_mem hrne)

theorem c9_witness :
    (0 ≤ (RUT.mk 0 '0').Number ∧ (RUT.mk 0 '0').Number ≤ 999999999)
    ∧ (('0' ≤ (RUT.mk 0 '0').DV ∧ (RUT.mk 0 '0').DV ≤ '9') ∨ (RUT.mk 0 '0').DV = 'K') :=
  c9_parse_invariants.1 ['0', '0', '0', '0', '-', '0'] ⟨0, '0'⟩ (by decide)

end Rut
